import Mathlib

/-!
Verification of the RFM aggregation pipeline and the segment-insight
classifier of `rfm_streamlit_app.py`.

Embedding conventions:
* Timestamps (`InvoiceDate`) are integers in seconds; one day is 86400
  seconds, and `pandas.Timedelta.days` is floored integer division.
* Amounts are integers in fixed-point minor units (cents); sums and
  quantile comparisons are exact.
* `pd.qcut(xs, 4, labels)` computes the five quantile edges of the data
  with linear interpolation.  Since the interpolation fractions are
  quarters, every edge times 4 is an integer; edges are represented
  scaled by 4 throughout and values `v` are compared as `4*v ≤ edge`.
* Failures are `Except` values.  The error taxonomy contains both the
  exceptions the code can actually raise (`keyError`, `valueError`,
  `typeError`) and the error names the specification postulates
  (`invalidLedgerError`, `scoringError`, `invalidInputError`), so that
  claims about the latter can be stated and settled.
-/

/-- A raw transaction row: `CustomerID`, `InvoiceDate` (seconds), `Amount`
(minor units). -/
structure Txn where
  customerId : Nat
  invoiceDate : Int
  amount : Int
deriving DecidableEq, Repr

/-- Seconds in one day, the unit of `pd.Timedelta(days=1)`. -/
def secPerDay : Int := 86400

/-- `pandas.Timedelta.days`: the duration in whole days, floored. -/
def timedeltaDays (d : Int) : Int := Int.fdiv d secPerDay

/-- Largest element of a list of integers (0 for the empty list);
models `Series.max`. -/
def listMaxD : List Int → Int
  | [] => 0
  | [a] => a
  | a :: b :: r => max a (listMaxD (b :: r))

/-- Insert into a sorted list of keys. -/
def insSorted (a : Nat) : List Nat → List Nat
  | [] => [a]
  | b :: bs => if a ≤ b then a :: b :: bs else b :: insSorted a bs

/-- Sort group keys ascending, as `DataFrame.groupby` does by default. -/
def sortKeys (l : List Nat) : List Nat := l.foldr insSorted []

/-- The distinct customers of a ledger, in the sorted order produced by
`groupby("CustomerID")`. -/
def customers (l : List Txn) : List Nat := sortKeys ((l.map Txn.customerId).dedup)

/-- The rows of one customer, in ledger order. -/
def rowsOf (l : List Txn) (c : Nat) : List Txn :=
  l.filter (fun t => t.customerId = c)

/-- `raw_df["InvoiceDate"].max()`. -/
def maxTs (l : List Txn) : Int := listMaxD (l.map Txn.invoiceDate)

/-- `ref_date = raw_df["InvoiceDate"].max() + pd.Timedelta(days=1)`. -/
def refDate (l : List Txn) : Int := maxTs l + secPerDay

/-- The most recent timestamp of one customer (`x.max()` inside the
grouped lambda). -/
def custMaxTs (l : List Txn) (c : Nat) : Int :=
  listMaxD ((rowsOf l c).map Txn.invoiceDate)

/-- `(ref_date - x.max()).days` for one customer. -/
def recencyOf (l : List Txn) (c : Nat) : Int :=
  timedeltaDays (refDate l - custMaxTs l c)

/-- Per-customer transaction count (`"InvoiceDate": "count"`). -/
def freqOf (l : List Txn) (c : Nat) : Nat := (rowsOf l c).length

/-- Per-customer amount sum (`"Amount": "sum"`). -/
def monOf (l : List Txn) (c : Nat) : Int := ((rowsOf l c).map Txn.amount).sum

/-- The `Recency` column, aligned with `customers`. -/
def recList (l : List Txn) : List Int := (customers l).map (recencyOf l)

/-- The `Frequency` column, aligned with `customers`. -/
def freqList (l : List Txn) : List Nat := (customers l).map (freqOf l)

/-- The `Monetary` column, aligned with `customers`. -/
def monListOf (l : List Txn) : List Int := (customers l).map (monOf l)

/-- Number of entries ranked at or before position `i` holding value `x`:
`Series.rank(method="first")` gives entry `i` the rank
`#{j | x_j < x_i or (x_j = x_i and j ≤ i)}`. -/
def rankFirstCount (xs : List Nat) (i : Nat) (x : Nat) : Nat :=
  xs.enum.countP (fun p => decide (p.2 < x ∨ (p.2 = x ∧ p.1 ≤ i)))

/-- `Series.rank(method="first")`: stable order-preserving ranks 1..n. -/
def rankFirst (xs : List Nat) : List Nat :=
  xs.enum.map (fun p => rankFirstCount xs p.1 p.2)

/-- Insertion sort of the metric values, ascending. -/
def insSortedInt (a : Int) : List Int → List Int
  | [] => [a]
  | b :: bs => if a ≤ b then a :: b :: bs else b :: insSortedInt a bs

/-- Sorted copy of the metric values, as quantile computation uses. -/
def sortInt (l : List Int) : List Int := l.foldr insSortedInt []

/-- The `j/4`-quantile (0 ≤ j ≤ 4) of the sorted values `s`, scaled by 4.
Linear interpolation: with `h = j*(n-1)/4`, `i = ⌊h⌋` and `γ = h - i`, the
quantile is `s[i] + γ*(s[i+1] - s[i])`; times 4 this is an integer. -/
def qEdge (s : List Int) (j : Nat) : Int :=
  let t := j * (s.length - 1)
  let lo := s.getD (t / 4) 0
  let hi := s.getD (t / 4 + 1) lo
  4 * lo + (t % 4 : Nat) * (hi - lo)

/-- The five quartile edges `pd.qcut(xs, 4)` computes, scaled by 4. -/
def qcutEdges (xs : List Int) : List Int :=
  let s := sortInt xs
  [qEdge s 0, qEdge s 1, qEdge s 2, qEdge s 3, qEdge s 4]

/-- Adjacent strict increase; `qcut` demands its bin edges be unique. -/
def strictlyIncr : List Int → Bool
  | a :: b :: r => decide (a < b) && strictlyIncr (b :: r)
  | _ => true

/-- Quartile bin (1..4) of value `v` for inner edges `e1 e2 e3` (each
scaled by 4): bins are the intervals `(e_{k-1}, e_k]`, the minimum being
pulled into bin 1. -/
def binOf (e1 e2 e3 : Int) (v : Int) : Nat :=
  if 4 * v ≤ e1 then 1 else if 4 * v ≤ e2 then 2 else if 4 * v ≤ e3 then 3 else 4

/-- Error taxonomy: the exceptions the code can raise, together with the
error names the specification postulates (which the code never raises). -/
inductive RFMError
  | keyError
  | valueError
  | typeError
  | invalidLedgerError
  | scoringError
  | invalidInputError
deriving DecidableEq, Repr

/-- `pd.qcut(xs, 4)` reduced to bin indices 1..4: fails on an empty
series or when the computed edges are not pairwise distinct, otherwise
assigns every value its quartile bin. -/
def qcutBins (xs : List Int) : Except RFMError (List Nat) :=
  if xs = [] then .error .valueError
  else if strictlyIncr (qcutEdges xs) then
    .ok (xs.map (binOf ((qcutEdges xs).getD 1 0) ((qcutEdges xs).getD 2 0)
      ((qcutEdges xs).getD 3 0)))
  else .error .valueError

/-- `labels=[...]` of `qcut`: bin `b` receives the label at index `b-1`. -/
def scoreLabel (labels : List Nat) (b : Nat) : Nat := labels.getD (b - 1) 0

/-- `labels=[4, 3, 2, 1]` used for `R_Score`. -/
def rLabels : List Nat := [4, 3, 2, 1]

/-- `labels=[1, 2, 3, 4]` used for `F_Score` and `M_Score`. -/
def fmLabels : List Nat := [1, 2, 3, 4]

/-- One output row of the computed RFM table. -/
structure RFMRow where
  Frequency : Nat
  Monetary : Int
  Recency : Int
  R_Score : Nat
  F_Score : Nat
  M_Score : Nat
  RFM_Score : String
deriving DecidableEq, Repr

/-- Default row used with `List.getD`. -/
def dummyRow : RFMRow := ⟨0, 0, 0, 0, 0, 0, ""⟩

/-- Default keyed row used with `List.getD`. -/
def dummyPair : Nat × RFMRow := (0, dummyRow)

/-- The output row of customer number `i`, assembled from the aligned
metric columns and bin lists; `RFM_Score` is
`R.astype(str) + F.astype(str) + M.astype(str)`. -/
def mkRow (l : List Txn) (rb fb mb : List Nat) (i : Nat) : Nat × RFMRow :=
  let rs := scoreLabel rLabels (rb.getD i 0)
  let fs := scoreLabel fmLabels (fb.getD i 0)
  let ms := scoreLabel fmLabels (mb.getD i 0)
  ((customers l).getD i 0,
   { Frequency := (freqList l).getD i 0
     Monetary := (monListOf l).getD i 0
     Recency := (recList l).getD i 0
     R_Score := rs
     F_Score := fs
     M_Score := ms
     RFM_Score := toString rs ++ toString fs ++ toString ms })

/-- The steps of the raw-transactions branch, in source order. -/
inductive PipeStage
  | readCsv
  | refDateStep
  | groupbyAgg
  | qcutRecency
  | qcutFrequency
  | qcutMonetary
deriving DecidableEq, Repr

/-- A failure, recorded with the step at which it arose. -/
structure StagedFailure where
  stage : PipeStage
  err : RFMError
deriving DecidableEq, Repr

/-- The uploaded table: which of the three columns are present, and the
rows (meaningful only when all three are). -/
structure RawTable where
  hasCustomerId : Bool
  hasInvoiceDate : Bool
  hasAmount : Bool
  rows : List Txn
deriving DecidableEq, Repr

/-- Whether a step precedes the `groupby` aggregation. -/
def stageIsPreAggregation : PipeStage → Bool
  | .readCsv => true
  | .refDateStep => true
  | _ => false

/-- The raw-transactions pipeline with failures tagged by step:
`read_csv(parse_dates=["InvoiceDate"])` raises when `InvoiceDate` is
absent; the `groupby`/`agg` raises a `KeyError` when `CustomerID` or
`Amount` is absent; otherwise the three `qcut` calls run in source
order, each able to raise. -/
def computeStaged (t : RawTable) : Except StagedFailure (List (Nat × RFMRow)) :=
  if !t.hasInvoiceDate then .error ⟨.readCsv, .valueError⟩
  else if !t.hasCustomerId || !t.hasAmount then .error ⟨.groupbyAgg, .keyError⟩
  else
    match qcutBins (recList t.rows) with
    | .error e => .error ⟨.qcutRecency, e⟩
    | .ok rb =>
      match qcutBins ((rankFirst (freqList t.rows)).map Int.ofNat) with
      | .error e => .error ⟨.qcutFrequency, e⟩
      | .ok fb =>
        match qcutBins (monListOf t.rows) with
        | .error e => .error ⟨.qcutMonetary, e⟩
        | .ok mb => .ok ((List.range (customers t.rows).length).map (mkRow t.rows rb fb mb))

/-- The RFM computation on a well-formed ledger (all columns present). -/
def computeRFM (l : List Txn) : Except RFMError (List (Nat × RFMRow)) :=
  (computeStaged ⟨true, true, true, l⟩).mapError StagedFailure.err

/-- Decidable equality for `Except`, used to evaluate concrete runs. -/
instance {ε α} [DecidableEq ε] [DecidableEq α] : DecidableEq (Except ε α) := fun a b =>
  match a, b with
  | .ok x, .ok y =>
    if h : x = y then .isTrue (by rw [h]) else .isFalse (by intro hc; cases hc; exact h rfl)
  | .error x, .error y =>
    if h : x = y then .isTrue (by rw [h]) else .isFalse (by intro hc; cases hc; exact h rfl)
  | .ok _, .error _ => .isFalse (by intro hc; cases hc)
  | .error _, .ok _ => .isFalse (by intro hc; cases hc)

/-! ### Column bookkeeping of the raw-transactions branch

The `agg` call is given a Python dict literal whose key `"InvoiceDate"`
appears twice, so the lambda entry is overwritten by `"count"` before
`agg` ever sees it; the later `rename` of `"<lambda_0>"` therefore
renames nothing, and `Recency` only enters the frame when it is assigned
as a fresh column, which appends it after the existing ones. -/

/-- An aggregation recipe appearing in the `agg` dict. -/
inductive AggSpec
  | aggOfLambda
  | aggOfCount
  | aggOfSum
deriving DecidableEq, Repr

/-- Python dict insertion: a repeated key overwrites the stored value but
keeps the position of its first occurrence. -/
def pyDictInsert (d : List (String × AggSpec)) (kv : String × AggSpec) :
    List (String × AggSpec) :=
  if d.any (fun p => p.1 = kv.1) then d.map (fun p => if p.1 = kv.1 then kv else p)
  else d ++ [kv]

/-- A Python dict literal, built entry by entry. -/
def pyDictOfList (ps : List (String × AggSpec)) : List (String × AggSpec) :=
  ps.foldl pyDictInsert []

/-- The dict literal passed to `agg` on lines 49-52 of the source. -/
def aggDictLiteral : List (String × AggSpec) :=
  pyDictOfList
    [("InvoiceDate", .aggOfLambda), ("InvoiceDate", .aggOfCount), ("Amount", .aggOfSum)]

/-- `DataFrame.rename(columns=...)`: renames the columns that occur in the
mapping and silently skips the mapping entries that match no column. -/
def renameCols (m : List (String × String)) (cols : List String) : List String :=
  cols.map (fun c => ((m.filter (fun p => p.1 = c)).head?.map Prod.snd).getD c)

/-- Column assignment `df[c] = ...`: appends `c` when it is new, keeps the
column order when it already exists. -/
def assignCol (cols : List String) (c : String) : List String :=
  if c ∈ cols then cols else cols ++ [c]

/-- The column order of the computed RFM table, obtained by replaying the
column operations of lines 49-64 in source order. -/
def rfmColumns : List String :=
  let agg := aggDictLiteral.map Prod.fst
  let renamed := renameCols
    [("InvoiceDate", "Frequency"), ("<lambda_0>", "Recency"), ("Amount", "Monetary")] agg
  let withRec := assignCol renamed "Recency"
  let renamed2 := renameCols [("InvoiceDate", "Frequency")] withRec
  let s1 := assignCol renamed2 "R_Score"
  let s2 := assignCol s1 "F_Score"
  let s3 := assignCol s2 "M_Score"
  assignCol s3 "RFM_Score"

/-! ### The segment-insight classifier (`generate_cluster_insight`) -/

/-- A dynamically typed scalar handed to the classifier: a number, the
float `nan` (a missing average), a string, or Python `None`. -/
inductive PyVal
  | num (q : ℚ)
  | nan
  | str (s : String)
  | pynone
deriving DecidableEq, Repr

/-- Python `v < k` for numeric `k`: numbers compare, `nan` compares
false, a string or `None` raises `TypeError`. -/
def pyLtNum : PyVal → ℚ → Except RFMError Bool
  | .num a, k => .ok (decide (a < k))
  | .nan, _ => .ok false
  | _, _ => .error .typeError

/-- Python `v > k` for numeric `k`. -/
def pyGtNum : PyVal → ℚ → Except RFMError Bool
  | .num a, k => .ok (decide (k < a))
  | .nan, _ => .ok false
  | _, _ => .error .typeError

/-- Python `v >= k` for numeric `k`. -/
def pyGeNum : PyVal → ℚ → Except RFMError Bool
  | .num a, k => .ok (decide (k ≤ a))
  | .nan, _ => .ok false
  | _, _ => .error .typeError

/-- Python `v <= k` for numeric `k`. -/
def pyLeNum : PyVal → ℚ → Except RFMError Bool
  | .num a, k => .ok (decide (a ≤ k))
  | .nan, _ => .ok false
  | _, _ => .error .typeError

/-- Python `v == k` for numeric `k`: never raises; mixed types and `nan`
compare unequal. -/
def pyEqNum : PyVal → ℚ → Bool
  | .num a, k => decide (a = k)
  | _, _ => false

/-- Python short-circuit `and` over fallible boolean computations. -/
def pyAnd (a b : Except RFMError Bool) : Except RFMError Bool := do
  if (← a) then b else pure false

/-- `recency < 30 and frequency >= 3 and monetary > 3000`. -/
def insightCond1 (r f m : PyVal) : Except RFMError Bool :=
  pyAnd (pyLtNum r 30) (pyAnd (pyGeNum f 3) (pyGtNum m 3000))

/-- `recency > 60 and frequency <= 1`. -/
def insightCond2 (r f : PyVal) : Except RFMError Bool :=
  pyAnd (pyGtNum r 60) (pyLeNum f 1)

/-- `frequency > 2 and monetary < 1000`. -/
def insightCond3 (f m : PyVal) : Except RFMError Bool :=
  pyAnd (pyGtNum f 2) (pyLtNum m 1000)

/-- `recency < 40 and frequency == 1`. -/
def insightCond4 (r f : PyVal) : Except RFMError Bool :=
  pyAnd (pyLtNum r 40) (pure (pyEqNum f 1))

/-- The string returned for rule 1. -/
def loyalHighValue : String :=
  "🔥 Loyal & High-Value Customers\nThese customers buy frequently and recently. Focus on retention and VIP treatment."

/-- The string returned for rule 2. -/
def atRiskChurned : String :=
  "⏳ At Risk or Churned Customers\nThey haven\x27t purchased in a while. Consider win-back campaigns or surveys."

/-- The string returned for rule 3. -/
def engagedLowSpend : String :=
  "💡 Engaged but Low Spending\nThey visit often but spend little. Upsell, bundle offers, or loyalty points may help."

/-- The string returned for rule 4. -/
def newOneTime : String :=
  "🧪 New or One-Time Shoppers\nThese are new or occasional buyers. Welcome them with onboarding offers."

/-- The fallback string. -/
def moderateActivity : String :=
  "📌 Moderate Activity Customers\nThey\u2019re average across RFM. Use personalized campaigns to boost loyalty."

/-- Lines 24-34 of the source: the ordered `if`/`elif` rule chain, with
Python evaluation order and short-circuiting preserved. -/
def generate_cluster_insight (recency frequency monetary : PyVal) :
    Except RFMError String := do
  if (← insightCond1 recency frequency monetary) then return loyalHighValue
  else if (← insightCond2 recency frequency) then return atRiskChurned
  else if (← insightCond3 frequency monetary) then return engagedLowSpend
  else if (← insightCond4 recency frequency) then return newOneTime
  else return moderateActivity

/-- The rule table exactly as the specification words it (first match
wins), for comparison with the code. -/
def specRuleTable (r f m : ℚ) : String :=
  if r < 30 ∧ 3 ≤ f ∧ 3000 < m then loyalHighValue
  else if 60 < r ∧ f ≤ 1 then atRiskChurned
  else if 2 < f ∧ m < 1000 then engagedLowSpend
  else if r < 40 ∧ f = 1 then newOneTime
  else moderateActivity

/-! ### Concrete ledgers used as witnesses and counterexamples -/

/-- A four-customer ledger on which the whole pipeline succeeds. -/
def ledger4 : List Txn :=
  [⟨1, 0, 10⟩, ⟨1, 2 * 86400, 20⟩, ⟨2, 4 * 86400, 5⟩,
   ⟨3, 6 * 86400, 50⟩, ⟨3, 7 * 86400, 60⟩, ⟨3, 8 * 86400, 70⟩,
   ⟨4, 9 * 86400, 100⟩]

/-- The RFM table the pipeline computes for `ledger4`. -/
def out4 : List (Nat × RFMRow) :=
  [(1, ⟨2, 30, 8, 1, 3, 2, "132"⟩),
   (2, ⟨1, 5, 6, 2, 1, 1, "211"⟩),
   (3, ⟨3, 180, 2, 3, 4, 4, "344"⟩),
   (4, ⟨1, 100, 1, 4, 2, 3, "423"⟩)]

/-- A two-customer ledger: every metric has only two distinct values, yet
every quartile cut succeeds. -/
def ledger2 : List Txn := [⟨1, 0, 10⟩, ⟨2, 5 * 86400, 20⟩]

/-- A ledger whose two customers share one Recency value. -/
def ledgerConstRec : List Txn := [⟨1, 0, 10⟩, ⟨2, 0, 20⟩]

/-- An uploaded table with all three columns but zero rows. -/
def emptyTable : RawTable := ⟨true, true, true, []⟩

/-- An uploaded table lacking the `CustomerID` column. -/
def noCustomerTable : RawTable := ⟨false, true, true, []⟩

/-! ### List access helpers -/

theorem getD_map_of_lt {α β : Type} (f : α → β) (xs : List α) {i : Nat}
    (h : i < xs.length) (d : β) (d' : α) :
    (xs.map f).getD i d = f (xs.getD i d') := by
  rw [List.getD_eq_getElem (xs.map f) d (by simpa using h),
      List.getD_eq_getElem xs d' h, List.getElem_map]

theorem getD_mem_of_lt {α : Type} (xs : List α) {i : Nat} (h : i < xs.length) (d : α) :
    xs.getD i d ∈ xs := by
  rw [List.getD_eq_getElem xs d h]; exact List.getElem_mem h

/-! ### Maxima -/

theorem le_listMaxD : ∀ {l : List Int} {x : Int}, x ∈ l → x ≤ listMaxD l
  | [a], x, h => by
    simp only [List.mem_singleton] at h
    simp [listMaxD, h]
  | a :: b :: r, x, h => by
    rcases List.mem_cons.mp h with h1 | h2
    · rw [h1, listMaxD]; exact le_max_left _ _
    · calc x ≤ listMaxD (b :: r) := le_listMaxD h2
        _ ≤ max a (listMaxD (b :: r)) := le_max_right _ _

theorem listMaxD_mem : ∀ {l : List Int}, l ≠ [] → listMaxD l ∈ l
  | [a], _ => by simp [listMaxD]
  | a :: b :: r, _ => by
    rw [listMaxD]
    rcases max_choice a (listMaxD (b :: r)) with h | h
    · rw [h]; exact List.mem_cons_self _ _
    · rw [h]; exact List.mem_cons_of_mem _ (listMaxD_mem (by simp))

/-! ### Customers -/

theorem mem_insSorted {x a : Nat} : ∀ {l : List Nat}, x ∈ insSorted a l ↔ x = a ∨ x ∈ l
  | [] => by simp [insSorted]
  | b :: bs => by
    rw [insSorted]
    split
    · simp [List.mem_cons]
    · simp only [List.mem_cons, @mem_insSorted x a bs]
      tauto

theorem mem_sortKeys {x : Nat} : ∀ {l : List Nat}, x ∈ sortKeys l ↔ x ∈ l
  | [] => by simp [sortKeys]
  | a :: r => by
    show x ∈ insSorted a (sortKeys r) ↔ _
    rw [mem_insSorted, @mem_sortKeys x r]
    simp [List.mem_cons]

theorem mem_customers {l : List Txn} {c : Nat} :
    c ∈ customers l ↔ ∃ t ∈ l, t.customerId = c := by
  rw [customers, mem_sortKeys, List.mem_dedup]
  constructor
  · intro h
    rcases List.mem_map.mp h with ⟨t, ht, hc⟩
    exact ⟨t, ht, hc⟩
  · rintro ⟨t, ht, hc⟩
    exact List.mem_map.mpr ⟨t, ht, hc⟩

theorem rowsOf_ne_nil {l : List Txn} {c : Nat} (h : c ∈ customers l) :
    rowsOf l c ≠ [] := by
  rcases mem_customers.mp h with ⟨t, ht, hc⟩
  have : t ∈ rowsOf l c := List.mem_filter.mpr ⟨ht, by simp [hc]⟩
  intro hnil
  rw [hnil] at this
  exact List.not_mem_nil t this

theorem le_custMaxTs {l : List Txn} {c : Nat} {t : Txn} (h : t ∈ rowsOf l c) :
    t.invoiceDate ≤ custMaxTs l c :=
  le_listMaxD (List.mem_map.mpr ⟨t, h, rfl⟩)

theorem le_maxTs {l : List Txn} {t : Txn} (h : t ∈ l) : t.invoiceDate ≤ maxTs l :=
  le_listMaxD (List.mem_map.mpr ⟨t, h, rfl⟩)

theorem custMaxTs_le_maxTs {l : List Txn} {c : Nat} (h : c ∈ customers l) :
    custMaxTs l c ≤ maxTs l := by
  have hne : (rowsOf l c).map Txn.invoiceDate ≠ [] := by
    intro hnil
    exact rowsOf_ne_nil h (List.map_eq_nil_iff.mp hnil)
  rcases List.mem_map.mp (listMaxD_mem hne) with ⟨t, ht, hts⟩
  rw [custMaxTs, ← hts]
  exact le_maxTs (List.mem_of_mem_filter ht)

/-! ### Recency bounds -/

theorem one_le_timedeltaDays {d : Int} (h : secPerDay ≤ d) : 1 ≤ timedeltaDays d := by
  rw [timedeltaDays, Int.fdiv_eq_ediv _ (by decide)]
  rw [Int.le_ediv_iff_mul_le (by decide)]
  simpa [secPerDay] using h

theorem one_le_recencyOf {l : List Txn} {c : Nat} (h : c ∈ customers l) :
    1 ≤ recencyOf l c := by
  apply one_le_timedeltaDays
  have := custMaxTs_le_maxTs h
  rw [refDate]
  omega

theorem recencyOf_eq_one {l : List Txn} {c : Nat} (h : custMaxTs l c = maxTs l) :
    recencyOf l c = 1 := by
  rw [recencyOf, refDate, h]
  have : maxTs l + secPerDay - maxTs l = secPerDay := by ring
  rw [this]
  decide

/-! ### Quartile bins -/

theorem binOf_bounds (e1 e2 e3 v : Int) :
    1 ≤ binOf e1 e2 e3 v ∧ binOf e1 e2 e3 v ≤ 4 := by
  rw [binOf]
  split_ifs <;> omega

theorem binOf_mono {e1 e2 e3 v w : Int} (h : v ≤ w) :
    binOf e1 e2 e3 v ≤ binOf e1 e2 e3 w := by
  rw [binOf, binOf]
  split_ifs <;> omega

theorem qcutBins_ok {xs : List Int} {bs : List Nat} (h : qcutBins xs = .ok bs) :
    xs ≠ [] ∧
      bs = xs.map (binOf ((qcutEdges xs).getD 1 0) ((qcutEdges xs).getD 2 0)
        ((qcutEdges xs).getD 3 0)) := by
  rw [qcutBins] at h
  split_ifs at h with h1 h2
  refine ⟨h1, ?_⟩
  injection h with h'
  exact h'.symm

theorem qcutBins_length {xs : List Int} {bs : List Nat} (h : qcutBins xs = .ok bs) :
    bs.length = xs.length := by
  rw [(qcutBins_ok h).2, List.length_map]

/-! ### Scores from bins -/

theorem scoreLabel_r {b : Nat} (h1 : 1 ≤ b) (h4 : b ≤ 4) :
    scoreLabel rLabels b = 5 - b := by
  interval_cases b <;> decide

theorem scoreLabel_fm {b : Nat} (h1 : 1 ≤ b) (h4 : b ≤ 4) :
    scoreLabel fmLabels b = b := by
  interval_cases b <;> decide

/-! ### Stable first ranks -/

theorem countP_lt_countP {α : Type} {p q : α → Bool} :
    ∀ {l : List α}, (∀ a ∈ l, p a = true → q a = true) →
      ∀ {a₀ : α}, a₀ ∈ l → q a₀ = true → p a₀ = false →
        l.countP p < l.countP q
  | [], _, _, h, _, _ => absurd h (List.not_mem_nil _)
  | b :: bs, hpq, a₀, hmem, hq, hp => by
    rw [List.countP_cons, List.countP_cons]
    rcases List.mem_cons.mp hmem with rfl | hmem'
    · have h1 : bs.countP p ≤ bs.countP q :=
        List.countP_mono_left (fun x hx => hpq x (List.mem_cons_of_mem _ hx))
      rw [hp, hq]
      simp only [Bool.false_eq_true, if_false, if_true]
      omega
    · have h1 : bs.countP p < bs.countP q :=
        countP_lt_countP (fun x hx => hpq x (List.mem_cons_of_mem _ hx)) hmem' hq hp
      have h2 : (if p b = true then 1 else 0) ≤ (if q b = true then 1 else 0) := by
        by_cases hb : p b = true
        · rw [hb, hpq b (List.mem_cons_self _ _) hb]
        · simp [hb]
      omega

theorem rankFirst_length (xs : List Nat) : (rankFirst xs).length = xs.length := by
  rw [rankFirst, List.length_map, List.enum_length]

theorem rankFirst_getD {xs : List Nat} {i : Nat} (h : i < xs.length) :
    (rankFirst xs).getD i 0 = rankFirstCount xs i (xs.getD i 0) := by
  have he : i < xs.enum.length := by rw [List.enum_length]; exact h
  rw [rankFirst, getD_map_of_lt _ _ he _ (0, 0),
      List.getD_eq_getElem _ _ he, List.getElem_enum,
      List.getD_eq_getElem _ _ h]

theorem rankFirstCount_strict {xs : List Nat} {i j : Nat}
    (hi : i < xs.length) (hj : j < xs.length)
    (hlt : xs.getD j 0 < xs.getD i 0) :
    rankFirstCount xs j (xs.getD j 0) < rankFirstCount xs i (xs.getD i 0) := by
  rw [rankFirstCount, rankFirstCount]
  have hmono : ∀ a ∈ xs.enum,
      decide (a.2 < xs.getD j 0 ∨ (a.2 = xs.getD j 0 ∧ a.1 ≤ j)) = true →
      decide (a.2 < xs.getD i 0 ∨ (a.2 = xs.getD i 0 ∧ a.1 ≤ i)) = true := by
    intro a _ hpa
    rw [decide_eq_true_eq] at hpa ⊢
    rcases hpa with h1 | ⟨h2, _⟩
    · exact Or.inl (lt_trans h1 hlt)
    · exact Or.inl (h2 ▸ hlt)
  have hmem : ((i, xs.getD i 0) : Nat × Nat) ∈ xs.enum := by
    have he : i < xs.enum.length := by rw [List.enum_length]; exact hi
    have hel : xs.enum[i] = (i, xs[i]) := List.getElem_enum xs i he
    rw [List.getD_eq_getElem xs 0 hi, ← hel]
    exact List.getElem_mem he
  have hqt : decide ((xs.getD i 0) < xs.getD i 0
      ∨ ((xs.getD i 0) = xs.getD i 0 ∧ i ≤ i)) = true := by
    rw [decide_eq_true_eq]
    exact Or.inr ⟨rfl, le_refl i⟩
  have hpf : decide ((xs.getD i 0) < xs.getD j 0
      ∨ ((xs.getD i 0) = xs.getD j 0 ∧ i ≤ j)) = false := by
    rw [decide_eq_false_iff_not]
    intro hcon
    rcases hcon with h1 | ⟨h2, _⟩
    · omega
    · omega
  exact countP_lt_countP hmono hmem hqt hpf

/-! ### Anatomy of a successful run -/

theorem computeRFM_anatomy {l : List Txn} {out : List (Nat × RFMRow)}
    (h : computeRFM l = .ok out) :
    ∃ rb fb mb : List Nat,
      qcutBins (recList l) = .ok rb ∧
      qcutBins ((rankFirst (freqList l)).map Int.ofNat) = .ok fb ∧
      qcutBins (monListOf l) = .ok mb ∧
      out = (List.range (customers l).length).map (mkRow l rb fb mb) := by
  rw [computeRFM, computeStaged] at h
  simp only [Bool.not_true, Bool.false_or, if_false] at h
  cases hrb : qcutBins (recList l) with
  | error e => rw [hrb] at h; simp [Except.mapError] at h
  | ok rb =>
    rw [hrb] at h
    cases hfb : qcutBins ((rankFirst (freqList l)).map Int.ofNat) with
    | error e => rw [hfb] at h; simp [Except.mapError] at h
    | ok fb =>
      rw [hfb] at h
      cases hmb : qcutBins (monListOf l) with
      | error e => rw [hmb] at h; simp [Except.mapError] at h
      | ok mb =>
        rw [hmb] at h
        simp only [Except.mapError] at h
        injection h with h'
        exact ⟨rb, fb, mb, rfl, rfl, rfl, h'.symm⟩

theorem out_length {l : List Txn} {rb fb mb : List Nat} {out : List (Nat × RFMRow)}
    (hout : out = (List.range (customers l).length).map (mkRow l rb fb mb)) :
    out.length = (customers l).length := by
  rw [hout, List.length_map, List.length_range]

theorem out_getD {l : List Txn} {rb fb mb : List Nat} {out : List (Nat × RFMRow)}
    (hout : out = (List.range (customers l).length).map (mkRow l rb fb mb))
    {i : Nat} (hi : i < out.length) :
    out.getD i dummyPair = mkRow l rb fb mb i := by
  subst hout
  have hr : i < (List.range (customers l).length).length := by simpa using hi
  rw [List.getD_eq_getElem _ _ (by simpa using hi), List.getElem_map, List.getElem_range]

theorem recList_length (l : List Txn) : (recList l).length = (customers l).length :=
  List.length_map _ _

theorem freqList_length (l : List Txn) : (freqList l).length = (customers l).length :=
  List.length_map _ _

theorem monListOf_length (l : List Txn) : (monListOf l).length = (customers l).length :=
  List.length_map _ _

theorem mkRow_fst (l : List Txn) (rb fb mb : List Nat) (i : Nat) :
    (mkRow l rb fb mb i).1 = (customers l).getD i 0 := rfl

theorem mkRow_Frequency {l : List Txn} (rb fb mb : List Nat) {i : Nat}
    (hi : i < (customers l).length) :
    (mkRow l rb fb mb i).2.Frequency = freqOf l ((customers l).getD i 0) := by
  show (freqList l).getD i 0 = _
  rw [freqList, getD_map_of_lt _ _ hi 0 0]

theorem mkRow_Monetary {l : List Txn} (rb fb mb : List Nat) {i : Nat}
    (hi : i < (customers l).length) :
    (mkRow l rb fb mb i).2.Monetary = monOf l ((customers l).getD i 0) := by
  show (monListOf l).getD i 0 = _
  rw [monListOf, getD_map_of_lt _ _ hi 0 0]

theorem mkRow_Recency {l : List Txn} (rb fb mb : List Nat) {i : Nat}
    (hi : i < (customers l).length) :
    (mkRow l rb fb mb i).2.Recency = recencyOf l ((customers l).getD i 0) := by
  show (recList l).getD i 0 = _
  rw [recList, getD_map_of_lt _ _ hi 0 0]

theorem mkRow_R_Score (l : List Txn) (rb fb mb : List Nat) (i : Nat) :
    (mkRow l rb fb mb i).2.R_Score = scoreLabel rLabels (rb.getD i 0) := rfl

theorem mkRow_F_Score (l : List Txn) (rb fb mb : List Nat) (i : Nat) :
    (mkRow l rb fb mb i).2.F_Score = scoreLabel fmLabels (fb.getD i 0) := rfl

theorem mkRow_M_Score (l : List Txn) (rb fb mb : List Nat) (i : Nat) :
    (mkRow l rb fb mb i).2.M_Score = scoreLabel fmLabels (mb.getD i 0) := rfl

theorem mkRow_RFM_Score (l : List Txn) (rb fb mb : List Nat) (i : Nat) :
    (mkRow l rb fb mb i).2.RFM_Score =
      toString (mkRow l rb fb mb i).2.R_Score ++ toString (mkRow l rb fb mb i).2.F_Score
        ++ toString (mkRow l rb fb mb i).2.M_Score := rfl

theorem bins_getD {xs : List Int} {bs : List Nat} (h : qcutBins xs = .ok bs)
    {i : Nat} (hi : i < xs.length) :
    bs.getD i 0 =
      binOf ((qcutEdges xs).getD 1 0) ((qcutEdges xs).getD 2 0) ((qcutEdges xs).getD 3 0)
        (xs.getD i 0) := by
  rw [(qcutBins_ok h).2, getD_map_of_lt _ _ hi 0 0]

theorem bins_getD_bounds {xs : List Int} {bs : List Nat} (h : qcutBins xs = .ok bs)
    {i : Nat} (hi : i < xs.length) :
    1 ≤ bs.getD i 0 ∧ bs.getD i 0 ≤ 4 := by
  rw [bins_getD h hi]
  exact binOf_bounds _ _ _ _

/-! ### Raw field values of a row -/

theorem mkRow_Frequency_raw (l : List Txn) (rb fb mb : List Nat) (i : Nat) :
    (mkRow l rb fb mb i).2.Frequency = (freqList l).getD i 0 := rfl

theorem mkRow_Monetary_raw (l : List Txn) (rb fb mb : List Nat) (i : Nat) :
    (mkRow l rb fb mb i).2.Monetary = (monListOf l).getD i 0 := rfl

theorem mkRow_Recency_raw (l : List Txn) (rb fb mb : List Nat) (i : Nat) :
    (mkRow l rb fb mb i).2.Recency = (recList l).getD i 0 := rfl

/-! ### Claim theorems -/

/-- C1.  For every non-empty ledger, the recency of each customer in the
output equals the whole number of days (floored) between the reference
date `max(timestamp) + 1 day` and that customer's most recent transaction
timestamp, and every output recency is non-negative. -/
theorem recency_matches_reference_and_nonneg (l : List Txn) (out : List (Nat × RFMRow))
    (hne : l ≠ []) (h : computeRFM l = .ok out) (i : Nat) (hi : i < out.length) :
    (out.getD i dummyPair).2.Recency
      = timedeltaDays (maxTs l + secPerDay - custMaxTs l (out.getD i dummyPair).1)
    ∧ 0 ≤ (out.getD i dummyPair).2.Recency := by
  obtain ⟨rb, fb, mb, hrb, hfb, hmb, hout⟩ := computeRFM_anatomy h
  have hic : i < (customers l).length := by rw [← out_length hout]; exact hi
  rw [out_getD hout hi, mkRow_fst, mkRow_Recency _ _ _ hic]
  refine ⟨rfl, ?_⟩
  have h1 : (1 : Int) ≤ recencyOf l ((customers l).getD i 0) :=
    one_le_recencyOf (getD_mem_of_lt _ hic 0)
  omega

/-- Witness for C1 on `ledger4`, row 0. -/
theorem recency_matches_reference_and_nonneg_witness :
    ledger4 ≠ [] ∧ computeRFM ledger4 = .ok out4 ∧ 0 < out4.length ∧
      ((out4.getD 0 dummyPair).2.Recency
         = timedeltaDays (maxTs ledger4 + secPerDay - custMaxTs ledger4 (out4.getD 0 dummyPair).1)
       ∧ 0 ≤ (out4.getD 0 dummyPair).2.Recency) :=
  ⟨by decide, by decide, by decide,
   recency_matches_reference_and_nonneg ledger4 out4 (by decide) (by decide) 0 (by decide)⟩

/-- C10.  On every successful run over a non-empty ledger, each output
recency is at least 1, and a customer holding the globally latest
transaction has recency exactly 1. -/
theorem recency_at_least_one_latest_exactly_one (l : List Txn) (out : List (Nat × RFMRow))
    (hne : l ≠ []) (h : computeRFM l = .ok out) :
    (∀ i, i < out.length → 1 ≤ (out.getD i dummyPair).2.Recency)
    ∧ ∃ i, ∃ hi : i < out.length,
        custMaxTs l (out.getD i dummyPair).1 = maxTs l
        ∧ (out.getD i dummyPair).2.Recency = 1 := by
  obtain ⟨rb, fb, mb, hrb, hfb, hmb, hout⟩ := computeRFM_anatomy h
  constructor
  · intro i hi
    have hic : i < (customers l).length := by rw [← out_length hout]; exact hi
    rw [out_getD hout hi, mkRow_Recency _ _ _ hic]
    exact one_le_recencyOf (getD_mem_of_lt _ hic 0)
  · have hmapne : l.map Txn.invoiceDate ≠ [] := by
      intro hcon
      exact hne (List.map_eq_nil_iff.mp hcon)
    obtain ⟨t, ht, hts⟩ := List.mem_map.mp (listMaxD_mem hmapne)
    have hc : t.customerId ∈ customers l := mem_customers.mpr ⟨t, ht, rfl⟩
    obtain ⟨i, hic, hget⟩ := List.mem_iff_getElem.mp hc
    have hi : i < out.length := by rw [out_length hout]; exact hic
    have hfst : (out.getD i dummyPair).1 = t.customerId := by
      rw [out_getD hout hi, mkRow_fst, List.getD_eq_getElem _ _ hic, hget]
    have hcm : custMaxTs l t.customerId = maxTs l := by
      apply le_antisymm (custMaxTs_le_maxTs hc)
      have htr : t ∈ rowsOf l t.customerId := List.mem_filter.mpr ⟨ht, by simp⟩
      have := le_custMaxTs htr
      rw [maxTs, ← hts]
      exact this
    refine ⟨i, hi, ?_, ?_⟩
    · rw [hfst]; exact hcm
    · rw [out_getD hout hi, mkRow_Recency _ _ _ hic]
      have hgc : (customers l).getD i 0 = t.customerId := by
        rw [List.getD_eq_getElem _ _ hic, hget]
      rw [hgc]
      exact recencyOf_eq_one hcm

/-- Witness for C10 on `ledger4`. -/
theorem recency_at_least_one_latest_exactly_one_witness :
    ledger4 ≠ [] ∧
      ((∀ i, i < out4.length → 1 ≤ (out4.getD i dummyPair).2.Recency)
       ∧ ∃ i, ∃ hi : i < out4.length,
           custMaxTs ledger4 (out4.getD i dummyPair).1 = maxTs ledger4
           ∧ (out4.getD i dummyPair).2.Recency = 1) :=
  ⟨by decide, recency_at_least_one_latest_exactly_one ledger4 out4 (by decide) (by decide)⟩

/-- C2.  On every successful run, every distinct customer of the ledger
has an output row whose frequency is the number of that customer's rows
and whose monetary is the sum of their amounts, the sum being invariant
under any permutation of the ledger. -/
theorem frequency_count_monetary_sum (l : List Txn) (out : List (Nat × RFMRow))
    (hne : l ≠ []) (h : computeRFM l = .ok out) (c : Nat) (hc : ∃ t ∈ l, t.customerId = c) :
    ∃ i, ∃ hi : i < out.length,
      (out.getD i dummyPair).1 = c
      ∧ (out.getD i dummyPair).2.Frequency = (l.filter (fun t => t.customerId = c)).length
      ∧ (out.getD i dummyPair).2.Monetary
          = ((l.filter (fun t => t.customerId = c)).map Txn.amount).sum
      ∧ ∀ l' : List Txn, l.Perm l' →
          ((l'.filter (fun t => t.customerId = c)).map Txn.amount).sum
            = (out.getD i dummyPair).2.Monetary := by
  obtain ⟨rb, fb, mb, hrb, hfb, hmb, hout⟩ := computeRFM_anatomy h
  obtain ⟨i, hic, hget⟩ := List.mem_iff_getElem.mp (mem_customers.mpr hc)
  have hi : i < out.length := by rw [out_length hout]; exact hic
  have hgc : (customers l).getD i 0 = c := by rw [List.getD_eq_getElem _ _ hic, hget]
  have hfst : (out.getD i dummyPair).1 = c := by rw [out_getD hout hi, mkRow_fst, hgc]
  have hfr : (out.getD i dummyPair).2.Frequency = freqOf l c := by
    rw [out_getD hout hi, mkRow_Frequency _ _ _ hic, hgc]
  have hmo : (out.getD i dummyPair).2.Monetary = monOf l c := by
    rw [out_getD hout hi, mkRow_Monetary _ _ _ hic, hgc]
  refine ⟨i, hi, hfst, ?_, ?_, ?_⟩
  · rw [hfr]; rfl
  · rw [hmo]; rfl
  · intro l' hp
    rw [hmo]
    exact (((hp.filter (fun t => t.customerId = c)).map Txn.amount).sum_eq).symm

/-- Witness for C2 on `ledger4`, customer 3. -/
theorem frequency_count_monetary_sum_witness :
    ledger4 ≠ [] ∧ (∃ t ∈ ledger4, t.customerId = 3) ∧
      (∃ i, ∃ hi : i < out4.length,
        (out4.getD i dummyPair).1 = 3
        ∧ (out4.getD i dummyPair).2.Frequency
            = (ledger4.filter (fun t => t.customerId = 3)).length
        ∧ (out4.getD i dummyPair).2.Monetary
            = ((ledger4.filter (fun t => t.customerId = 3)).map Txn.amount).sum
        ∧ ∀ l' : List Txn, ledger4.Perm l' →
            ((l'.filter (fun t => t.customerId = 3)).map Txn.amount).sum
              = (out4.getD i dummyPair).2.Monetary) :=
  ⟨by decide, ⟨⟨3, 6 * 86400, 50⟩, by decide⟩,
   frequency_count_monetary_sum ledger4 out4 (by decide) (by decide) 3
     ⟨⟨3, 6 * 86400, 50⟩, by decide⟩⟩

theorem toString_length_one {s : Nat} (h1 : 1 ≤ s) (h4 : s ≤ 4) :
    (toString s).length = 1 := by
  interval_cases s <;> decide

/-- C6.  On every successful run, each of the three scores of every
output row lies in {1,2,3,4}, and `RFM_Score` is exactly the 3-character
concatenation of the R, F and M score digits, in that order. -/
theorem scores_in_range_and_rfm_concat (l : List Txn) (out : List (Nat × RFMRow))
    (h : computeRFM l = .ok out) (i : Nat) (hi : i < out.length) :
    ((out.getD i dummyPair).2.R_Score = 1 ∨ (out.getD i dummyPair).2.R_Score = 2
      ∨ (out.getD i dummyPair).2.R_Score = 3 ∨ (out.getD i dummyPair).2.R_Score = 4)
    ∧ ((out.getD i dummyPair).2.F_Score = 1 ∨ (out.getD i dummyPair).2.F_Score = 2
      ∨ (out.getD i dummyPair).2.F_Score = 3 ∨ (out.getD i dummyPair).2.F_Score = 4)
    ∧ ((out.getD i dummyPair).2.M_Score = 1 ∨ (out.getD i dummyPair).2.M_Score = 2
      ∨ (out.getD i dummyPair).2.M_Score = 3 ∨ (out.getD i dummyPair).2.M_Score = 4)
    ∧ (out.getD i dummyPair).2.RFM_Score
        = toString (out.getD i dummyPair).2.R_Score
            ++ toString (out.getD i dummyPair).2.F_Score
            ++ toString (out.getD i dummyPair).2.M_Score
    ∧ (out.getD i dummyPair).2.RFM_Score.length = 3 := by
  obtain ⟨rb, fb, mb, hrb, hfb, hmb, hout⟩ := computeRFM_anatomy h
  have hic : i < (customers l).length := by rw [← out_length hout]; exact hi
  have hir : i < (recList l).length := by rw [recList_length]; exact hic
  have hif : i < ((rankFirst (freqList l)).map Int.ofNat).length := by
    rw [List.length_map, rankFirst_length, freqList_length]; exact hic
  have him : i < (monListOf l).length := by rw [monListOf_length]; exact hic
  have hrbnd := bins_getD_bounds hrb hir
  have hfbnd := bins_getD_bounds hfb hif
  have hmbnd := bins_getD_bounds hmb him
  have hR : (out.getD i dummyPair).2.R_Score = scoreLabel rLabels (rb.getD i 0) := by
    rw [out_getD hout hi, mkRow_R_Score]
  have hF : (out.getD i dummyPair).2.F_Score = scoreLabel fmLabels (fb.getD i 0) := by
    rw [out_getD hout hi, mkRow_F_Score]
  have hM : (out.getD i dummyPair).2.M_Score = scoreLabel fmLabels (mb.getD i 0) := by
    rw [out_getD hout hi, mkRow_M_Score]
  have hRb : (out.getD i dummyPair).2.R_Score = 5 - rb.getD i 0 := by
    rw [hR, scoreLabel_r hrbnd.1 hrbnd.2]
  have hFb : (out.getD i dummyPair).2.F_Score = fb.getD i 0 := by
    rw [hF, scoreLabel_fm hfbnd.1 hfbnd.2]
  have hMb : (out.getD i dummyPair).2.M_Score = mb.getD i 0 := by
    rw [hM, scoreLabel_fm hmbnd.1 hmbnd.2]
  have hRr : (out.getD i dummyPair).2.R_Score = 1 ∨ (out.getD i dummyPair).2.R_Score = 2
      ∨ (out.getD i dummyPair).2.R_Score = 3 ∨ (out.getD i dummyPair).2.R_Score = 4 := by
    omega
  have hFr : (out.getD i dummyPair).2.F_Score = 1 ∨ (out.getD i dummyPair).2.F_Score = 2
      ∨ (out.getD i dummyPair).2.F_Score = 3 ∨ (out.getD i dummyPair).2.F_Score = 4 := by
    omega
  have hMr : (out.getD i dummyPair).2.M_Score = 1 ∨ (out.getD i dummyPair).2.M_Score = 2
      ∨ (out.getD i dummyPair).2.M_Score = 3 ∨ (out.getD i dummyPair).2.M_Score = 4 := by
    omega
  have hcat : (out.getD i dummyPair).2.RFM_Score
      = toString (out.getD i dummyPair).2.R_Score
          ++ toString (out.getD i dummyPair).2.F_Score
          ++ toString (out.getD i dummyPair).2.M_Score := by
    rw [out_getD hout hi]
    exact mkRow_RFM_Score l rb fb mb i
  refine ⟨hRr, hFr, hMr, hcat, ?_⟩
  rw [hcat, String.length_append, String.length_append,
      toString_length_one (by omega) (by omega), toString_length_one (by omega) (by omega),
      toString_length_one (by omega) (by omega)]

/-- Witness for C6 on `ledger4`, row 2. -/
theorem scores_in_range_and_rfm_concat_witness :
    computeRFM ledger4 = .ok out4 ∧ 2 < out4.length ∧
      (((out4.getD 2 dummyPair).2.R_Score = 1 ∨ (out4.getD 2 dummyPair).2.R_Score = 2
        ∨ (out4.getD 2 dummyPair).2.R_Score = 3 ∨ (out4.getD 2 dummyPair).2.R_Score = 4)
      ∧ ((out4.getD 2 dummyPair).2.F_Score = 1 ∨ (out4.getD 2 dummyPair).2.F_Score = 2
        ∨ (out4.getD 2 dummyPair).2.F_Score = 3 ∨ (out4.getD 2 dummyPair).2.F_Score = 4)
      ∧ ((out4.getD 2 dummyPair).2.M_Score = 1 ∨ (out4.getD 2 dummyPair).2.M_Score = 2
        ∨ (out4.getD 2 dummyPair).2.M_Score = 3 ∨ (out4.getD 2 dummyPair).2.M_Score = 4)
      ∧ (out4.getD 2 dummyPair).2.RFM_Score
          = toString (out4.getD 2 dummyPair).2.R_Score
              ++ toString (out4.getD 2 dummyPair).2.F_Score
              ++ toString (out4.getD 2 dummyPair).2.M_Score
      ∧ (out4.getD 2 dummyPair).2.RFM_Score.length = 3) :=
  ⟨by decide, by decide,
   scores_in_range_and_rfm_concat ledger4 out4 (by decide) 2 (by decide)⟩

theorem score_fm_mono {xs : List Int} {bs : List Nat} (h : qcutBins xs = .ok bs)
    {i j : Nat} (hi : i < xs.length) (hj : j < xs.length)
    (hle : xs.getD j 0 ≤ xs.getD i 0) :
    scoreLabel fmLabels (bs.getD j 0) ≤ scoreLabel fmLabels (bs.getD i 0) := by
  have hbi := bins_getD_bounds h hi
  have hbj := bins_getD_bounds h hj
  rw [scoreLabel_fm hbj.1 hbj.2, scoreLabel_fm hbi.1 hbi.2, bins_getD h hi, bins_getD h hj]
  exact binOf_mono hle

theorem score_r_antitone {xs : List Int} {bs : List Nat} (h : qcutBins xs = .ok bs)
    {i j : Nat} (hi : i < xs.length) (hj : j < xs.length)
    (hle : xs.getD i 0 ≤ xs.getD j 0) :
    scoreLabel rLabels (bs.getD j 0) ≤ scoreLabel rLabels (bs.getD i 0) := by
  have hbi := bins_getD_bounds h hi
  have hbj := bins_getD_bounds h hj
  have hmono : bs.getD i 0 ≤ bs.getD j 0 := by
    rw [bins_getD h hi, bins_getD h hj]
    exact binOf_mono hle
  rw [scoreLabel_r hbj.1 hbj.2, scoreLabel_r hbi.1 hbi.2]
  omega

/-- C7.  On every successful run, scoring is monotone: strictly smaller
recency gives a greater-or-equal R score, strictly greater frequency a
greater-or-equal F score, strictly greater monetary a greater-or-equal
M score. -/
theorem score_monotone_in_metrics (l : List Txn) (out : List (Nat × RFMRow))
    (h : computeRFM l = .ok out) (i j : Nat) (hi : i < out.length) (hj : j < out.length) :
    ((out.getD i dummyPair).2.Recency < (out.getD j dummyPair).2.Recency →
      (out.getD j dummyPair).2.R_Score ≤ (out.getD i dummyPair).2.R_Score)
    ∧ ((out.getD j dummyPair).2.Frequency < (out.getD i dummyPair).2.Frequency →
      (out.getD j dummyPair).2.F_Score ≤ (out.getD i dummyPair).2.F_Score)
    ∧ ((out.getD j dummyPair).2.Monetary < (out.getD i dummyPair).2.Monetary →
      (out.getD j dummyPair).2.M_Score ≤ (out.getD i dummyPair).2.M_Score) := by
  obtain ⟨rb, fb, mb, hrb, hfb, hmb, hout⟩ := computeRFM_anatomy h
  have hic : i < (customers l).length := by rw [← out_length hout]; exact hi
  have hjc : j < (customers l).length := by rw [← out_length hout]; exact hj
  have hir : i < (recList l).length := by rw [recList_length]; exact hic
  have hjr : j < (recList l).length := by rw [recList_length]; exact hjc
  have hifq : i < (freqList l).length := by rw [freqList_length]; exact hic
  have hjfq : j < (freqList l).length := by rw [freqList_length]; exact hjc
  have hif : i < ((rankFirst (freqList l)).map Int.ofNat).length := by
    rw [List.length_map, rankFirst_length]; exact hifq
  have hjf : j < ((rankFirst (freqList l)).map Int.ofNat).length := by
    rw [List.length_map, rankFirst_length]; exact hjfq
  have him : i < (monListOf l).length := by rw [monListOf_length]; exact hic
  have hjm : j < (monListOf l).length := by rw [monListOf_length]; exact hjc
  rw [out_getD hout hi, out_getD hout hj]
  refine ⟨?_, ?_, ?_⟩
  · intro hlt
    rw [mkRow_Recency_raw, mkRow_Recency_raw] at hlt
    rw [mkRow_R_Score, mkRow_R_Score]
    exact score_r_antitone hrb hir hjr (le_of_lt hlt)
  · intro hlt
    rw [mkRow_Frequency_raw, mkRow_Frequency_raw] at hlt
    rw [mkRow_F_Score, mkRow_F_Score]
    have hrk : rankFirstCount (freqList l) j ((freqList l).getD j 0)
        < rankFirstCount (freqList l) i ((freqList l).getD i 0) :=
      rankFirstCount_strict hifq hjfq hlt
    have hgi : ((rankFirst (freqList l)).map Int.ofNat).getD i 0
        = Int.ofNat (rankFirstCount (freqList l) i ((freqList l).getD i 0)) := by
      rw [getD_map_of_lt _ _ (by rw [rankFirst_length]; exact hifq) 0 0,
          rankFirst_getD hifq]
    have hgj : ((rankFirst (freqList l)).map Int.ofNat).getD j 0
        = Int.ofNat (rankFirstCount (freqList l) j ((freqList l).getD j 0)) := by
      rw [getD_map_of_lt _ _ (by rw [rankFirst_length]; exact hjfq) 0 0,
          rankFirst_getD hjfq]
    have hle : ((rankFirst (freqList l)).map Int.ofNat).getD j 0
        ≤ ((rankFirst (freqList l)).map Int.ofNat).getD i 0 := by
      rw [hgi, hgj]
      exact Int.ofNat_le.mpr (le_of_lt hrk)
    exact score_fm_mono hfb hif hjf hle
  · intro hlt
    rw [mkRow_Monetary_raw, mkRow_Monetary_raw] at hlt
    rw [mkRow_M_Score, mkRow_M_Score]
    exact score_fm_mono hmb him hjm (le_of_lt hlt)

/-- Witness for C7 on `ledger4`, rows 3 and 0. -/
theorem score_monotone_in_metrics_witness :
    computeRFM ledger4 = .ok out4 ∧ 3 < out4.length ∧ 0 < out4.length ∧
      (((out4.getD 3 dummyPair).2.Recency < (out4.getD 0 dummyPair).2.Recency →
        (out4.getD 0 dummyPair).2.R_Score ≤ (out4.getD 3 dummyPair).2.R_Score)
      ∧ ((out4.getD 0 dummyPair).2.Frequency < (out4.getD 3 dummyPair).2.Frequency →
        (out4.getD 0 dummyPair).2.F_Score ≤ (out4.getD 3 dummyPair).2.F_Score)
      ∧ ((out4.getD 0 dummyPair).2.Monetary < (out4.getD 3 dummyPair).2.Monetary →
        (out4.getD 0 dummyPair).2.M_Score ≤ (out4.getD 3 dummyPair).2.M_Score)) :=
  ⟨by decide, by decide, by decide,
   score_monotone_in_metrics ledger4 out4 (by decide) 3 0 (by decide) (by decide)⟩

/-! ### The classifier on purely numeric input -/

theorem pyAnd_ok {x y : Bool} {a b : Except RFMError Bool} (ha : a = .ok x) (hb : b = .ok y) :
    pyAnd a b = .ok (x && y) := by
  subst ha hb
  cases x <;> rfl

theorem exceptOk_bind {ε α β : Type} (a : α) (f : α → Except ε β) :
    (Except.ok a : Except ε α) >>= f = f a := rfl

theorem exceptPure_eq_ok {ε α : Type} (a : α) : (pure a : Except ε α) = .ok a := rfl

theorem insight_on_numbers (r f m : ℚ) :
    generate_cluster_insight (.num r) (.num f) (.num m) = .ok (specRuleTable r f m) := by
  have h1 : pyLtNum (PyVal.num r) 30 = .ok (decide (r < 30)) := rfl
  have h2 : pyGeNum (PyVal.num f) 3 = .ok (decide (3 ≤ f)) := rfl
  have h3 : pyGtNum (PyVal.num m) 3000 = .ok (decide (3000 < m)) := rfl
  have h4 : pyGtNum (PyVal.num r) 60 = .ok (decide (60 < r)) := rfl
  have h5 : pyLeNum (PyVal.num f) 1 = .ok (decide (f ≤ 1)) := rfl
  have h6 : pyGtNum (PyVal.num f) 2 = .ok (decide (2 < f)) := rfl
  have h7 : pyLtNum (PyVal.num m) 1000 = .ok (decide (m < 1000)) := rfl
  have h8 : pyLtNum (PyVal.num r) 40 = .ok (decide (r < 40)) := rfl
  have h9 : (pure (pyEqNum (PyVal.num f) 1) : Except RFMError Bool) = .ok (decide (f = 1)) := rfl
  rw [generate_cluster_insight, insightCond1, insightCond2, insightCond3, insightCond4,
      h1, h2, h3, h4, h5, h6, h7, h8, h9]
  rw [pyAnd_ok rfl rfl, pyAnd_ok rfl rfl, pyAnd_ok rfl rfl, pyAnd_ok rfl rfl, pyAnd_ok rfl rfl]
  simp only [← Bool.decide_and]
  rw [specRuleTable]
  by_cases p1 : r < 30 ∧ 3 ≤ f ∧ 3000 < m <;>
    by_cases p2 : 60 < r ∧ f ≤ 1 <;>
      by_cases p3 : 2 < f ∧ m < 1000 <;>
        by_cases p4 : r < 40 ∧ f = 1 <;>
          (simp [p1, p2, p3, p4, exceptOk_bind, exceptPure_eq_ok] <;> split <;> rfl)

/-- C4.  On every numeric triple the classifier returns the label of the
first matching rule of the fixed ordered rule set (stated as equality
with `specRuleTable`, the rule table transcribed from the specification),
and the two scenario inputs map to the rule-1 and rule-2 labels. -/
theorem classifier_first_match_and_scenarios (r f m : ℚ) :
    generate_cluster_insight (.num r) (.num f) (.num m) = .ok (specRuleTable r f m)
    ∧ generate_cluster_insight (.num 10) (.num 5) (.num 5000) = .ok loyalHighValue
    ∧ generate_cluster_insight (.num 90) (.num 1) (.num 20) = .ok atRiskChurned :=
  ⟨insight_on_numbers r f m, by decide, by decide⟩

/-- C9 counterexample: a non-numeric recency makes the classifier fail
with a generic `TypeError` (the Python comparison raising), not with the
`InvalidInputError` the claim names. -/
theorem classifier_nonnumeric_gives_type_error :
    generate_cluster_insight (.str "n/a") (.num 1) (.num 1) = .error .typeError
    ∧ RFMError.typeError ≠ RFMError.invalidInputError :=
  ⟨rfl, by decide⟩

/-- C9 amended: every fully numeric triple succeeds; a string in the
recency position always raises a `TypeError` (no `InvalidInputError`
exists anywhere in the code). -/
theorem classifier_numeric_total_nonnumeric_type_error :
    (∀ r f m : ℚ, ∃ s : String, generate_cluster_insight (.num r) (.num f) (.num m) = .ok s)
    ∧ (∀ (t : String) (f m : PyVal),
        generate_cluster_insight (.str t) f m = .error .typeError) := by
  constructor
  · intro r f m
    exact ⟨specRuleTable r f m, insight_on_numbers r f m⟩
  · intro t f m
    rfl

/-! ### Degenerate quartile inputs -/

theorem mem_insSortedInt {x a : Int} : ∀ {l : List Int}, x ∈ insSortedInt a l ↔ x = a ∨ x ∈ l
  | [] => by simp [insSortedInt]
  | b :: bs => by
    rw [insSortedInt]
    split
    · simp [List.mem_cons]
    · simp only [List.mem_cons, @mem_insSortedInt x a bs]
      tauto

theorem mem_sortInt {x : Int} : ∀ {l : List Int}, x ∈ sortInt l ↔ x ∈ l
  | [] => by simp [sortInt]
  | a :: r => by
    show x ∈ insSortedInt a (sortInt r) ↔ _
    rw [mem_insSortedInt, @mem_sortInt x r]
    simp [List.mem_cons]

theorem length_insSortedInt (a : Int) :
    ∀ (l : List Int), (insSortedInt a l).length = l.length + 1
  | [] => rfl
  | b :: bs => by
    rw [insSortedInt]
    split
    · rfl
    · simp [length_insSortedInt a bs]

theorem length_sortInt : ∀ (l : List Int), (sortInt l).length = l.length
  | [] => rfl
  | a :: r => by
    show (insSortedInt a (sortInt r)).length = r.length + 1
    rw [length_insSortedInt, length_sortInt r]

theorem customers_ne_nil {l : List Txn} (hne : l ≠ []) : customers l ≠ [] := by
  obtain ⟨t, r, rfl⟩ : ∃ t r, l = t :: r := by
    cases l with
    | nil => exact absurd rfl hne
    | cons t r => exact ⟨t, r, rfl⟩
  have hm : t.customerId ∈ customers (t :: r) :=
    mem_customers.mpr ⟨t, List.mem_cons_self _ _, rfl⟩
  intro hc
  rw [hc] at hm
  exact List.not_mem_nil _ hm

theorem qEdge_const {s : List Int} {v : Int} (hall : ∀ x ∈ s, x = v) (hne : s ≠ [])
    (j : Nat) (hj : j ≤ 4) : qEdge s j = 4 * v := by
  have hlen : 0 < s.length := List.length_pos.mpr hne
  have hidx : j * (s.length - 1) / 4 < s.length := by
    have h1 : j * (s.length - 1) ≤ 4 * (s.length - 1) := Nat.mul_le_mul_right _ hj
    have h2 : j * (s.length - 1) / 4 ≤ 4 * (s.length - 1) / 4 := Nat.div_le_div_right h1
    have h3 : 4 * (s.length - 1) / 4 = s.length - 1 := by omega
    omega
  simp only [qEdge]
  have hlo : s.getD (j * (s.length - 1) / 4) 0 = v := hall _ (getD_mem_of_lt _ hidx 0)
  rw [hlo]
  by_cases hh : j * (s.length - 1) / 4 + 1 < s.length
  · rw [hall _ (getD_mem_of_lt _ hh v)]
    simp
  · rw [List.getD_eq_default _ _ (by omega)]
    simp

theorem qcutEdges_const {xs : List Int} {v : Int} (hall : ∀ x ∈ xs, x = v) (hne : xs ≠ []) :
    qcutEdges xs = [4 * v, 4 * v, 4 * v, 4 * v, 4 * v] := by
  have hs : ∀ x ∈ sortInt xs, x = v := fun x hx => hall x (mem_sortInt.mp hx)
  have hsne : sortInt xs ≠ [] := by
    intro hc
    apply hne
    have hl := length_sortInt xs
    rw [hc] at hl
    exact List.length_eq_zero.mp hl.symm
  simp only [qcutEdges]
  rw [qEdge_const hs hsne 0 (by omega), qEdge_const hs hsne 1 (by omega),
      qEdge_const hs hsne 2 (by omega), qEdge_const hs hsne 3 (by omega),
      qEdge_const hs hsne 4 (by omega)]

theorem strictlyIncr_five_const (a : Int) : strictlyIncr [a, a, a, a, a] = false := by
  have hlt : ¬(a < a) := lt_irrefl a
  simp [strictlyIncr, hlt]

theorem qcutBins_const_error {xs : List Int} {v : Int}
    (hall : ∀ x ∈ xs, x = v) (hne : xs ≠ []) :
    qcutBins xs = .error .valueError := by
  rw [qcutBins, if_neg hne, qcutEdges_const hall hne, strictlyIncr_five_const]
  simp

/-- C3 counterexample: on `ledger2` every metric takes only two distinct
values across the customer population — fewer than 4 — yet the whole
computation succeeds instead of failing with any error. -/
theorem two_distinct_values_succeed :
    (recList ledger2).dedup.length < 4
    ∧ (freqList ledger2).dedup.length < 4
    ∧ (monListOf ledger2).dedup.length < 4
    ∧ (computeRFM ledger2).isOk = true := by decide

/-- C3 amended: when the Recency metric is constant across the customer
population (a single distinct value), the quartile edges collapse and the
computation fails with a generic `ValueError` surfaced by the caller —
not with a `ScoringError`, which does not exist in the code; with 2 or 3
distinct values the cut can succeed (see the counterexample). -/
theorem constant_recency_fails_generic (l : List Txn) (hne : l ≠ [])
    (v : Int) (hconst : ∀ x ∈ recList l, x = v) :
    computeRFM l = .error .valueError := by
  have hrne : recList l ≠ [] := by
    intro hc
    apply customers_ne_nil hne
    exact List.map_eq_nil_iff.mp hc
  have hq : qcutBins (recList l) = .error .valueError := qcutBins_const_error hconst hrne
  rw [computeRFM, computeStaged]
  simp only [Bool.not_true, Bool.false_or, if_false]
  rw [hq]
  simp [Except.mapError]

/-- Witness for the amended C3 on `ledgerConstRec`. -/
theorem constant_recency_fails_generic_witness :
    ledgerConstRec ≠ [] ∧ (∀ x ∈ recList ledgerConstRec, x = 1)
    ∧ computeRFM ledgerConstRec = .error .valueError :=
  ⟨by decide, by decide,
   constant_recency_fails_generic ledgerConstRec (by decide) 1 (by decide)⟩

/-- C5 counterexample: the computed table's columns are not in the
claimed order Recency, Frequency, Monetary, ...; the duplicate dict key
turns the first aggregation column into Frequency and `Recency` is
appended third. -/
theorem column_order_not_as_claimed :
    rfmColumns = ["Frequency", "Monetary", "Recency", "R_Score", "F_Score", "M_Score", "RFM_Score"]
    ∧ rfmColumns
        ≠ ["Recency", "Frequency", "Monetary", "R_Score", "F_Score", "M_Score", "RFM_Score"] := by
  decide

/-- C5 amended: the table is keyed by `CustomerID` (the rows of every
successful run are keyed exactly by the ledger's sorted distinct
customers), and the column order is Frequency, Monetary, Recency,
R_Score, F_Score, M_Score, RFM_Score. -/
theorem columns_actual_order_keyed_by_customer :
    rfmColumns = ["Frequency", "Monetary", "Recency", "R_Score", "F_Score", "M_Score", "RFM_Score"]
    ∧ ∀ (l : List Txn) (out : List (Nat × RFMRow)), computeRFM l = .ok out →
        out.map Prod.fst = customers l := by
  refine ⟨by decide, ?_⟩
  intro l out h
  obtain ⟨rb, fb, mb, _hrb, _hfb, _hmb, hout⟩ := computeRFM_anatomy h
  subst hout
  apply List.ext_getElem
  · simp
  · intro n h1 h2
    simp only [List.getElem_map, List.getElem_range]
    rw [mkRow_fst, List.getD_eq_getElem _ _ h2]

/-- Witness for the amended C5 on `ledger4`. -/
theorem columns_actual_order_keyed_by_customer_witness :
    computeRFM ledger4 = .ok out4 ∧ out4.map Prod.fst = customers ledger4 :=
  ⟨by decide, columns_actual_order_keyed_by_customer.2 ledger4 out4 (by decide)⟩

/-- C8 counterexample: an all-columns, zero-row table does not fail
before aggregation with an `InvalidLedgerError`; the groupby aggregation
runs (trivially) and the failure is a generic `ValueError` at the Recency
quartile step. -/
theorem empty_ledger_fails_at_scoring_not_before :
    computeStaged emptyTable = .error ⟨.qcutRecency, .valueError⟩
    ∧ stageIsPreAggregation .qcutRecency = false
    ∧ RFMError.valueError ≠ RFMError.invalidLedgerError := by
  refine ⟨by decide, by decide, by decide⟩

/-- C8 amended: with `InvoiceDate` present, a table missing `CustomerID`
or `Amount` fails with a `KeyError` raised at the groupby aggregation
step (not an `InvalidLedgerError`, which does not exist in the code). -/
theorem missing_column_key_error_at_groupby (t : RawTable)
    (hinv : t.hasInvoiceDate = true)
    (hmiss : t.hasCustomerId = false ∨ t.hasAmount = false) :
    computeStaged t = .error ⟨.groupbyAgg, .keyError⟩ := by
  rw [computeStaged, hinv]
  rcases hmiss with h | h <;> rw [h] <;> simp

/-- Witness for the amended C8 on `noCustomerTable`. -/
theorem missing_column_key_error_at_groupby_witness :
    noCustomerTable.hasInvoiceDate = true
    ∧ (noCustomerTable.hasCustomerId = false ∨ noCustomerTable.hasAmount = false)
    ∧ computeStaged noCustomerTable = .error ⟨.groupbyAgg, .keyError⟩ :=
  ⟨rfl, Or.inl rfl, missing_column_key_error_at_groupby noCustomerTable rfl (Or.inl rfl)⟩
